import Mathlib

/-!
# Verification of the ATS resume checker core (`src/main.py`)

This file gives a shallow embedding, in Lean 4, of the core functions of the
ATS resume checker:

* `preprocess_text` (src/main.py lines 89-116): lowercasing, punctuation
  stripping, tokenization, stopword / length filtering;
* `get_keywords` (src/main.py lines 155-164): frequency-based keyword
  extraction;
* `calculate_match_score` (src/main.py lines 125-153): the match scorer.

Modelling conventions:

* Python strings are Lean `String`s (a `None`-able argument becomes
  `Option String`); the character predicates (`\w`, `\s`, `str.isdigit`,
  `str.lower`) are modelled on the ASCII fragment, which is what every
  claim and scenario exercises.
* Python `Counter(l)[x]` is `List.count x l`; Python sets of strings are
  modelled as duplicate-free `List String` intermediates (CPython set
  iteration order is unspecified; the lists here fix one deterministic
  order) and the *returned* sets are `Finset String`.
* `sorted(s, key=lambda x: counter[x], reverse=True)` is a sort by
  descending count (`List.insertionSort` with the count-≥ relation).
* Python `round(x, 2)` on these scores is modelled over `ℚ` as exact
  round-half-to-even at two decimal places (`round2` below).  CPython
  rounds the binary double computed by `(len/len)*100`, which agrees with
  `round2` whenever the score is farther than one double-rounding error
  from a decimal tie `x.xx5`; properties that are decided exactly at such
  a tie depend on IEEE-754 bit patterns and are outside this model.
-/

/-- Python `str.isspace` on the characters the `\s` regex class matches
(ASCII fragment): space, tab, newline, carriage return, vertical tab,
form feed. -/
def pyIsSpace (c : Char) : Bool :=
  c = ' ' || c = '\t' || c = '\n' || c = '\r' || c = '\x0b' || c = '\x0c'

/-- The `\w` regex class (ASCII fragment): letters, digits and underscore. -/
def isWordChar (c : Char) : Bool :=
  c.isAlphanum || c = '_'

/-- Python `str.isdigit` (ASCII fragment): non-empty and all characters
are digits. -/
def pyIsDigit (s : String) : Bool :=
  !s.data.isEmpty && s.data.all Char.isDigit

/-- `text.lower()` followed by `re.sub(r'[^\w\s]', '', text)`
(src/main.py lines 95-96 and 103-104): lowercase every character, then
delete every character that is neither a word character nor whitespace. -/
def cleanText (s : String) : String :=
  String.mk ((s.data.map Char.toLower).filter (fun c => isWordChar c || pyIsSpace c))

/-- Core of Python `str.split()` (no separator): split a character list on
runs of whitespace, discarding empty pieces.  `acc` holds the (reversed)
characters of the token currently being read. -/
def splitWsCore : List Char → List Char → List (List Char)
  | [], acc => if acc.isEmpty then [] else [acc.reverse]
  | c :: cs, acc =>
    if pyIsSpace c then
      if acc.isEmpty then splitWsCore cs [] else acc.reverse :: splitWsCore cs []
    else
      splitWsCore cs (c :: acc)

/-- Python `text.split()` (src/main.py lines 78, 97, 110). -/
def pySplit (s : String) : List String :=
  (splitWsCore s.data []).map String.mk

/-- Modelled from the spec: `nltk.tokenize.word_tokenize`, the external
language-aware tokenizer (§4.1 step 3: "split on a tokenizer boundary";
"a plain whitespace split is an acceptable and required fallback").  The
input it receives in this program has already been stripped of every
non-word, non-space character, on which the language-aware rules coincide
with whitespace splitting. -/
def word_tokenize (text : String) : List String :=
  pySplit text

/-- Modelled from the spec: the external English stopword resource
(`stopwords.words('english')`, §4.1: "Depends on an external stopword
set"; glossary: "a common word (e.g., \"the\", \"and\")").  Entries
containing an apostrophe are omitted: `preprocess_text` filters tokens
only after `cleanText` has deleted every apostrophe, so such entries can
never match a token. -/
def STOP_WORDS_english : List String :=
  ["i", "me", "my", "myself", "we", "our", "ours", "ourselves",
   "you", "your", "yours", "yourself", "yourselves",
   "he", "him", "his", "himself", "she", "her", "hers", "herself",
   "it", "its", "itself", "they", "them", "their", "theirs", "themselves",
   "what", "which", "who", "whom", "this", "that", "these", "those",
   "am", "is", "are", "was", "were", "be", "been", "being",
   "have", "has", "had", "having", "do", "does", "did", "doing",
   "a", "an", "the", "and", "but", "if", "or", "because", "as",
   "until", "while", "of", "at", "by", "for", "with", "about",
   "against", "between", "into", "through", "during", "before",
   "after", "above", "below", "to", "from", "up", "down", "in",
   "out", "on", "off", "over", "under", "again", "further", "then",
   "once", "here", "there", "when", "where", "why", "how", "all",
   "any", "both", "each", "few", "more", "most", "other", "some",
   "such", "no", "nor", "not", "only", "own", "same", "so", "than",
   "too", "very", "s", "t", "can", "will", "just", "don", "should",
   "now", "d", "ll", "m", "o", "re", "ve", "y", "ain", "aren",
   "couldn", "didn", "doesn", "hadn", "hasn", "haven", "isn", "ma",
   "mightn", "mustn", "needn", "shan", "shouldn", "wasn", "weren",
   "won", "wouldn"]

/-- The module-level `STOP_WORDS` global (src/main.py lines 70 and 74):
the English stopword set when the NLTK resources loaded, the empty set
otherwise. -/
def STOP_WORDS (ready : Bool) : List String :=
  if ready then STOP_WORDS_english else []

/-- The token filter shared by both branches of `preprocess_text`
(src/main.py lines 99 and 112-115): keep `word` when it is not a stopword
and either has length > 1 or is purely numeric. -/
def keepToken (ready : Bool) (w : String) : Bool :=
  decide (w ∉ STOP_WORDS ready) && (decide (1 < w.length) || pyIsDigit w)

/-- `preprocess_text` (src/main.py lines 89-116), parameterized by the
module-level `NLTK_RESOURCES_READY` flag (line 65).  `none` models a
Python `None` argument; both `None` and `""` are falsy, so `if not text`
returns `[]` for both.  When the resources are ready the tokens come from
`word_tokenize`, otherwise from `text.split()`; either way the same
stopword/length filter is applied. -/
def preprocess_text (ready : Bool) (text : Option String) : List String :=
  match text with
  | none => []
  | some s =>
    if s = "" then []
    else
      let t := cleanText s
      let tokens := if ready then word_tokenize t else pySplit t
      tokens.filter (keepToken ready)

/-- Python `dict` / `Counter` key order: the distinct elements of `l` in
first-occurrence order.  (`List.dedup` keeps last occurrences, so dedup
the reversed list and reverse back.) -/
def pyDictKeys (l : List String) : List String :=
  (l.reverse.dedup).reverse

/-- `count b ≤ count a` in `rt`: the descending-frequency comparison used
by `sorted(..., key=lambda x: resume_counter[x], reverse=True)`. -/
def freqGe (rt : List String) (a b : String) : Prop :=
  rt.count b ≤ rt.count a

instance freqGe.decidableRel (rt : List String) : DecidableRel (freqGe rt) :=
  fun _ _ => Nat.decLe _ _

instance freqGe.isTotal (rt : List String) : IsTotal String (freqGe rt) :=
  ⟨fun a b => Nat.le_total (rt.count b) (rt.count a)⟩

instance freqGe.isTrans (rt : List String) : IsTrans String (freqGe rt) :=
  ⟨fun _ _ _ h1 h2 => Nat.le_trans h2 h1⟩

/-- `sorted(l, key=lambda x: rt.count(x), reverse=True)`: stable-ish sort
of `l` by descending frequency in `rt`. -/
def sortByFreqDesc (rt l : List String) : List String :=
  List.insertionSort (freqGe rt) l

/-- `Counter(l).most_common(n)` (keywords only, src/main.py line 162):
the distinct elements of `l` sorted by descending count, truncated to the
first `n`. -/
def most_common (l : List String) (n : ℕ) : List String :=
  (sortByFreqDesc l (pyDictKeys l)).take n

/-- `get_keywords` (src/main.py lines 155-164), parameterized by the
`NLTK_RESOURCES_READY` flag consulted by `preprocess_text`. -/
def get_keywords (ready : Bool) (text : Option String)
    (min_freq : ℕ := 2) (top_n : ℕ := 50) : List String :=
  let tokens := preprocess_text ready text
  if tokens = [] then []
  else
    let keywords := (most_common tokens (top_n * 2)).filter
      (fun w => decide (min_freq ≤ tokens.count w) && !pyIsDigit w)
    keywords.take top_n

/-- Round-half-to-even to an integer, the decimal rounding CPython's
`round` performs. -/
def roundHalfEven (q : ℚ) : ℤ :=
  if 2 * (q - ⌊q⌋) < 1 then ⌊q⌋
  else if 1 < 2 * (q - ⌊q⌋) then ⌊q⌋ + 1
  else if 2 ∣ ⌊q⌋ then ⌊q⌋ else ⌊q⌋ + 1

/-- Python `round(x, 2)` over `ℚ`. -/
def round2 (q : ℚ) : ℚ :=
  (roundHalfEven (q * 100) : ℚ) / 100

/-- `{word for word, count in Counter(jd_keywords).items() if count >= min_freq}`
(src/main.py line 137): the frequency-filtered JD keyword set, as a
duplicate-free list. -/
def jdFilteredList (jd : List String) (min_freq : ℕ) : List String :=
  jd.dedup.filter (fun w => decide (min_freq ≤ jd.count w))

/-- `jd_keywords_filtered.intersection(resume_counter.keys())`
(src/main.py line 140): `Counter(resume_tokens)` has exactly the tokens
occurring in `resume_tokens` as keys, so this is a membership test. -/
def matchedList (rt jd : List String) (min_freq : ℕ) : List String :=
  (jdFilteredList jd min_freq).filter (fun w => decide (w ∈ rt))

/-- `jd_keywords_filtered.difference(matched_keywords)` (src/main.py
line 143). -/
def missingList (rt jd : List String) (min_freq : ℕ) : List String :=
  (jdFilteredList jd min_freq).filter (fun w => decide (w ∉ rt))

/-- The `top_n` truncation (src/main.py lines 149-151):
`set(sorted(l, key=lambda x: resume_counter[x], reverse=True)[:top_n])`
when `top_n > 0`, the untruncated set otherwise. -/
def capTopN (top_n : ℕ) (rt l : List String) : List String :=
  if 0 < top_n then (sortByFreqDesc rt l).take top_n else l

/-- `calculate_match_score` (src/main.py lines 125-153).  Returns
`(score, matched_keywords, missing_keywords)`; the returned sets are
`Finset`s. -/
def calculate_match_score (resume_tokens jd_keywords : List String)
    (min_freq : ℕ := 1) (top_n : ℕ := 75) : ℚ × Finset String × Finset String :=
  if resume_tokens = [] ∨ jd_keywords = [] then (0, ∅, ∅)
  else
    let jdf := jdFilteredList jd_keywords min_freq
    let matched := matchedList resume_tokens jd_keywords min_freq
    let missing := missingList resume_tokens jd_keywords min_freq
    let score : ℚ :=
      if jdf ≠ [] then (matched.length : ℚ) / (jdf.length : ℚ) * 100 else 0
    (round2 score,
     (capTopN top_n resume_tokens matched).toFinset,
     (capTopN top_n resume_tokens missing).toFinset)

/-- Spec-side (§4.3) frequency-filtered JD keyword set, as a `Finset`:
the distinct `jd` entries whose count within `jd` is at least `min_freq`. -/
def specFiltered (jd : List String) (min_freq : ℕ) : Finset String :=
  jd.toFinset.filter (fun w => min_freq ≤ jd.count w)

/-- Spec-side (§4.3) matched set: filtered keywords present in the
resume. -/
def specMatched (rt jd : List String) (min_freq : ℕ) : Finset String :=
  specFiltered jd min_freq ∩ rt.toFinset

/-- Spec-side (§4.3) missing set: filtered keywords absent from the
resume. -/
def specMissing (rt jd : List String) (min_freq : ℕ) : Finset String :=
  specFiltered jd min_freq \ specMatched rt jd min_freq

/-! ## Evaluation lemmas for `roundHalfEven` and `round2` -/

theorem roundHalfEven_eq_floor {q : ℚ} {f : ℤ} (hf : ⌊q⌋ = f)
    (h : 2 * (q - f) < 1) : roundHalfEven q = f := by
  unfold roundHalfEven
  rw [hf, if_pos h]

theorem roundHalfEven_eq_floor_add_one {q : ℚ} {f : ℤ} (hf : ⌊q⌋ = f)
    (h : 1 < 2 * (q - f)) : roundHalfEven q = f + 1 := by
  unfold roundHalfEven
  rw [hf, if_neg (by linarith), if_pos h]

theorem roundHalfEven_tie_even {q : ℚ} {f : ℤ} (hf : ⌊q⌋ = f)
    (h : 2 * (q - f) = 1) (he : 2 ∣ f) : roundHalfEven q = f := by
  unfold roundHalfEven
  rw [hf, if_neg (by linarith), if_neg (by linarith), if_pos he]

/-- `roundHalfEven` stays between the floor and the floor plus one. -/
theorem roundHalfEven_bounds (q : ℚ) :
    ⌊q⌋ ≤ roundHalfEven q ∧ roundHalfEven q ≤ ⌊q⌋ + 1 := by
  unfold roundHalfEven
  split_ifs <;> omega

/-- `roundHalfEven` never rounds down by more than one half. -/
theorem sub_half_le_roundHalfEven (q : ℚ) : q - 1 / 2 ≤ (roundHalfEven q : ℚ) := by
  have h1 : (⌊q⌋ : ℚ) ≤ q := Int.floor_le q
  have h2 : q < ⌊q⌋ + 1 := Int.lt_floor_add_one q
  unfold roundHalfEven
  split_ifs with ha hb hc <;> push_cast <;> linarith

/-- `roundHalfEven` is monotone. -/
theorem roundHalfEven_mono {x y : ℚ} (h : x ≤ y) :
    roundHalfEven x ≤ roundHalfEven y := by
  have hfl : ⌊x⌋ ≤ ⌊y⌋ := Int.floor_le_floor h
  rcases eq_or_lt_of_le hfl with heq | hlt
  · have hq : ((⌊x⌋ : ℤ) : ℚ) = ((⌊y⌋ : ℤ) : ℚ) := by exact_mod_cast heq
    unfold roundHalfEven
    rw [← heq]
    split_ifs <;> first | omega | linarith
  · have b1 := roundHalfEven_bounds x
    have b2 := roundHalfEven_bounds y
    omega

theorem round2_mono {x y : ℚ} (h : x ≤ y) : round2 x ≤ round2 y := by
  unfold round2
  have : roundHalfEven (x * 100) ≤ roundHalfEven (y * 100) :=
    roundHalfEven_mono (by linarith)
  have hc : (roundHalfEven (x * 100) : ℚ) ≤ (roundHalfEven (y * 100) : ℚ) := by
    exact_mod_cast this
  linarith

theorem round2_zero : round2 0 = 0 := by
  have : roundHalfEven 0 = 0 :=
    roundHalfEven_eq_floor (by norm_num) (by norm_num [Int.floor_zero])
  simp [round2, this]

/-! ## Projection lemmas for `calculate_match_score` -/

theorem cms_fst (rt jd : List String) (mf tn : ℕ) (h1 : rt ≠ []) (h2 : jd ≠ []) :
    (calculate_match_score rt jd mf tn).1
      = round2 (((matchedList rt jd mf).length : ℚ)
          / ((jdFilteredList jd mf).length : ℚ) * 100) := by
  unfold calculate_match_score
  rw [if_neg (by simp [h1, h2])]
  by_cases hj : jdFilteredList jd mf = []
  · have hm : matchedList rt jd mf = [] := by simp [matchedList, hj]
    simp [hj, hm]
  · simp [hj]

theorem cms_matched (rt jd : List String) (mf tn : ℕ) (h1 : rt ≠ []) (h2 : jd ≠ []) :
    (calculate_match_score rt jd mf tn).2.1
      = (capTopN tn rt (matchedList rt jd mf)).toFinset := by
  unfold calculate_match_score
  rw [if_neg (by simp [h1, h2])]

theorem cms_missing (rt jd : List String) (mf tn : ℕ) (h1 : rt ≠ []) (h2 : jd ≠ []) :
    (calculate_match_score rt jd mf tn).2.2
      = (capTopN tn rt (missingList rt jd mf)).toFinset := by
  unfold calculate_match_score
  rw [if_neg (by simp [h1, h2])]

/-! ## Bridging the list-valued intermediates to the spec-side `Finset`s -/

theorem jdFilteredList_nodup (jd : List String) (mf : ℕ) :
    (jdFilteredList jd mf).Nodup :=
  (List.nodup_dedup jd).filter _

theorem mem_jdFilteredList {jd : List String} {mf : ℕ} {w : String} :
    w ∈ jdFilteredList jd mf ↔ w ∈ jd ∧ mf ≤ jd.count w := by
  simp [jdFilteredList, List.mem_filter, List.mem_dedup]

theorem toFinset_jdFilteredList (jd : List String) (mf : ℕ) :
    (jdFilteredList jd mf).toFinset = specFiltered jd mf := by
  ext w
  simp [mem_jdFilteredList, specFiltered]

theorem length_jdFilteredList (jd : List String) (mf : ℕ) :
    (jdFilteredList jd mf).length = (specFiltered jd mf).card := by
  rw [← toFinset_jdFilteredList,
    List.toFinset_card_of_nodup (jdFilteredList_nodup jd mf)]

theorem matchedList_nodup (rt jd : List String) (mf : ℕ) :
    (matchedList rt jd mf).Nodup :=
  (jdFilteredList_nodup jd mf).filter _

theorem mem_matchedList {rt jd : List String} {mf : ℕ} {w : String} :
    w ∈ matchedList rt jd mf ↔ (w ∈ jd ∧ mf ≤ jd.count w) ∧ w ∈ rt := by
  simp [matchedList, mem_jdFilteredList]

theorem toFinset_matchedList (rt jd : List String) (mf : ℕ) :
    (matchedList rt jd mf).toFinset = specMatched rt jd mf := by
  ext w
  simp only [List.mem_toFinset, mem_matchedList, specMatched, specFiltered,
    Finset.mem_inter, Finset.mem_filter, List.mem_toFinset]

theorem length_matchedList (rt jd : List String) (mf : ℕ) :
    (matchedList rt jd mf).length = (specMatched rt jd mf).card := by
  rw [← toFinset_matchedList,
    List.toFinset_card_of_nodup (matchedList_nodup rt jd mf)]

theorem missingList_nodup (rt jd : List String) (mf : ℕ) :
    (missingList rt jd mf).Nodup :=
  (jdFilteredList_nodup jd mf).filter _

theorem mem_missingList {rt jd : List String} {mf : ℕ} {w : String} :
    w ∈ missingList rt jd mf ↔ (w ∈ jd ∧ mf ≤ jd.count w) ∧ w ∉ rt := by
  simp [missingList, mem_jdFilteredList]

theorem toFinset_missingList (rt jd : List String) (mf : ℕ) :
    (missingList rt jd mf).toFinset = specMissing rt jd mf := by
  ext w
  simp only [List.mem_toFinset, mem_missingList, specMissing, specMatched,
    specFiltered, Finset.mem_sdiff, Finset.mem_inter, Finset.mem_filter,
    List.mem_toFinset]
  tauto

/-! ## Lemmas about the top-N truncation -/

theorem capTopN_subset {tn : ℕ} {rt l : List String} {w : String}
    (h : w ∈ capTopN tn rt l) : w ∈ l := by
  unfold capTopN at h
  split at h
  · exact (List.perm_insertionSort _ _).subset ((List.take_sublist _ _).subset h)
  · exact h

theorem capTopN_nodup {tn : ℕ} {rt l : List String} (h : l.Nodup) :
    (capTopN tn rt l).Nodup := by
  unfold capTopN
  split
  · exact List.Nodup.sublist (List.take_sublist _ _)
      ((List.perm_insertionSort (freqGe rt) l).symm.nodup h)
  · exact h

theorem capTopN_card_le {tn : ℕ} {rt l : List String} (htn : 0 < tn) :
    (capTopN tn rt l).toFinset.card ≤ tn := by
  unfold capTopN
  rw [if_pos htn]
  calc ((sortByFreqDesc rt l).take tn).toFinset.card
      ≤ ((sortByFreqDesc rt l).take tn).length := List.toFinset_card_le _
    _ ≤ tn := List.length_take_le _ _

/-- Everything retained by the truncation beats, in resume frequency,
everything it drops. -/
theorem capTopN_count_ge {tn : ℕ} {rt l : List String} (htn : 0 < tn)
    {w v : String} (hw : w ∈ capTopN tn rt l) (hv : v ∈ l)
    (hv2 : v ∉ capTopN tn rt l) : rt.count v ≤ rt.count w := by
  unfold capTopN at hw hv2
  rw [if_pos htn] at hw hv2
  have hsort : List.Sorted (freqGe rt) (sortByFreqDesc rt l) :=
    List.sorted_insertionSort _ _
  have hv' : v ∈ sortByFreqDesc rt l :=
    (List.perm_insertionSort (freqGe rt) l).symm.subset hv
  have hvdrop : v ∈ (sortByFreqDesc rt l).drop tn := by
    rcases List.mem_append.mp
        (by rw [List.take_append_drop tn (sortByFreqDesc rt l)]; exact hv') with h | h
    · exact absurd h hv2
    · exact h
  have hp : List.Pairwise (freqGe rt) (sortByFreqDesc rt l) := hsort
  rw [← List.take_append_drop tn (sortByFreqDesc rt l)] at hp
  exact (List.pairwise_append.mp hp).2.2 w hw v hvdrop

/-- The guard at src/main.py lines 130-131. -/
theorem cms_empty (rt jd : List String) (mf tn : ℕ) (h : rt = [] ∨ jd = []) :
    calculate_match_score rt jd mf tn = (0, ∅, ∅) := by
  unfold calculate_match_score
  rw [if_pos h]

/-- Scenario A of the spec, evaluated on the embedding. -/
theorem scenarioA_eval :
    calculate_match_score ["python", "developer", "sql"]
      ["python", "sql", "java", "python"] 1 75
      = (6667 / 100, {"python", "sql"}, {"java"}) := by
  refine Prod.ext ?_ (Prod.ext ?_ ?_)
  · rw [cms_fst _ _ _ _ (by decide) (by decide)]
    have hm : (matchedList ["python", "developer", "sql"]
        ["python", "sql", "java", "python"] 1).length = 2 := by decide
    have hj : (jdFilteredList ["python", "sql", "java", "python"] 1).length = 3 := by
      decide
    rw [hm, hj]
    have h23 : (((2 : ℕ) : ℚ)) / (((3 : ℕ) : ℚ)) * 100 = 200 / 3 := by norm_num
    rw [h23]
    have hfl : ⌊((200 : ℚ) / 3) * 100⌋ = 6666 := by
      rw [Int.floor_eq_iff]
      constructor <;> norm_num
    unfold round2
    rw [roundHalfEven_eq_floor_add_one hfl (by push_cast; norm_num)]
    norm_num
  · rw [cms_matched _ _ _ _ (by decide) (by decide)]
    decide
  · rw [cms_missing _ _ _ _ (by decide) (by decide)]
    decide


/-! ## Claims about `calculate_match_score` -/

/-- **C1**: for every non-empty `resume_tokens` and non-empty `jd_keywords`,
`calculate_match_score` returns score
`(|matched| / |filtered keyword set|) * 100` rounded to two decimal places,
where the filtered keyword set is the set of distinct JD keywords whose
count within `jd_keywords` is at least `min_freq`, matched is its
intersection with the set of resume tokens, and missing is the filtered
set minus matched; in particular, on Scenario A the result is
`(66.67, {python, sql}, {java})`. -/
theorem claim_C1 (rt jd : List String) (mf tn : ℕ) (h1 : rt ≠ []) (h2 : jd ≠ []) :
    (calculate_match_score rt jd mf tn).1
      = round2 (((specMatched rt jd mf).card : ℚ)
          / ((specFiltered jd mf).card : ℚ) * 100)
    ∧ calculate_match_score ["python", "developer", "sql"]
        ["python", "sql", "java", "python"] 1 75
        = (6667 / 100, {"python", "sql"}, {"java"}) := by
  constructor
  · rw [cms_fst rt jd mf tn h1 h2, length_matchedList, length_jdFilteredList]
  · exact scenarioA_eval

theorem claim_C1_witness :
    (calculate_match_score ["python", "developer", "sql"]
        ["python", "sql", "java", "python"] 1 75).1
      = round2 (((specMatched ["python", "developer", "sql"]
            ["python", "sql", "java", "python"] 1).card : ℚ)
          / ((specFiltered ["python", "sql", "java", "python"] 1).card : ℚ) * 100) :=
  (claim_C1 ["python", "developer", "sql"] ["python", "sql", "java", "python"]
    1 75 (by decide) (by decide)).1

/-- **C2**: for every `min_freq` and `top_n`, if `resume_tokens` is empty or
`jd_keywords` is empty, `calculate_match_score` returns exactly
`(0.0, ∅, ∅)`; in particular for `resume_tokens = []` and
`jd_keywords = ["python"]`. -/
theorem claim_C2 (rt jd : List String) (mf tn : ℕ) (h : rt = [] ∨ jd = []) :
    calculate_match_score rt jd mf tn = (0, ∅, ∅) :=
  cms_empty rt jd mf tn h

theorem claim_C2_witness :
    calculate_match_score [] ["python"] 1 75 = (0, ∅, ∅) :=
  claim_C2 [] ["python"] 1 75 (Or.inl rfl)

/-- **C3**: for every input, the returned matched and missing sets are
disjoint, their union is contained in the frequency-filtered JD keyword
set computed before top-N capping, every element of the returned matched
set occurs in `resume_tokens`, and no element of the returned missing set
does. -/
theorem claim_C3 (rt jd : List String) (mf tn : ℕ) :
    Disjoint (calculate_match_score rt jd mf tn).2.1
        (calculate_match_score rt jd mf tn).2.2
    ∧ (calculate_match_score rt jd mf tn).2.1
        ∪ (calculate_match_score rt jd mf tn).2.2 ⊆ specFiltered jd mf
    ∧ (∀ w ∈ (calculate_match_score rt jd mf tn).2.1, w ∈ rt)
    ∧ (∀ w ∈ (calculate_match_score rt jd mf tn).2.2, w ∉ rt) := by
  by_cases hg : rt = [] ∨ jd = []
  · rw [cms_empty rt jd mf tn hg]
    simp
  · push_neg at hg
    rw [cms_matched rt jd mf tn hg.1 hg.2, cms_missing rt jd mf tn hg.1 hg.2]
    refine ⟨?_, ?_, ?_, ?_⟩
    · rw [Finset.disjoint_left]
      intro w hw hw'
      have h1 : w ∈ rt :=
        (mem_matchedList.mp (capTopN_subset (List.mem_toFinset.mp hw))).2
      have h2 : w ∉ rt :=
        (mem_missingList.mp (capTopN_subset (List.mem_toFinset.mp hw'))).2
      exact h2 h1
    · intro w hw
      rcases Finset.mem_union.mp hw with h | h
      · have := (mem_matchedList.mp (capTopN_subset (List.mem_toFinset.mp h))).1
        simp [specFiltered, this.1, this.2]
      · have := (mem_missingList.mp (capTopN_subset (List.mem_toFinset.mp h))).1
        simp [specFiltered, this.1, this.2]
    · intro w hw
      exact (mem_matchedList.mp (capTopN_subset (List.mem_toFinset.mp hw))).2
    · intro w hw
      exact (mem_missingList.mp (capTopN_subset (List.mem_toFinset.mp hw))).2

/-- **C4**: for every input with `top_n > 0`, the returned matched and
missing sets each have at most `top_n` entries, and every retained entry
has a resume-token frequency at least as large as that of any
matched (resp. missing) keyword the truncation dropped. -/
theorem claim_C4 (rt jd : List String) (mf tn : ℕ) (htn : 0 < tn) :
    (calculate_match_score rt jd mf tn).2.1.card ≤ tn
    ∧ (calculate_match_score rt jd mf tn).2.2.card ≤ tn
    ∧ (∀ w ∈ (calculate_match_score rt jd mf tn).2.1,
        ∀ v ∈ specMatched rt jd mf,
          v ∉ (calculate_match_score rt jd mf tn).2.1 →
            rt.count v ≤ rt.count w)
    ∧ (∀ w ∈ (calculate_match_score rt jd mf tn).2.2,
        ∀ v ∈ specMissing rt jd mf,
          v ∉ (calculate_match_score rt jd mf tn).2.2 →
            rt.count v ≤ rt.count w) := by
  by_cases hg : rt = [] ∨ jd = []
  · rw [cms_empty rt jd mf tn hg]
    simp
  · push_neg at hg
    rw [cms_matched rt jd mf tn hg.1 hg.2, cms_missing rt jd mf tn hg.1 hg.2]
    refine ⟨capTopN_card_le htn, capTopN_card_le htn, ?_, ?_⟩
    · intro w hw v hv hv2
      refine capTopN_count_ge htn (List.mem_toFinset.mp hw) ?_
        (fun hmem => hv2 (List.mem_toFinset.mpr hmem))
      rw [← toFinset_matchedList] at hv
      exact List.mem_toFinset.mp hv
    · intro w hw v hv hv2
      refine capTopN_count_ge htn (List.mem_toFinset.mp hw) ?_
        (fun hmem => hv2 (List.mem_toFinset.mpr hmem))
      rw [← toFinset_missingList] at hv
      exact List.mem_toFinset.mp hv

theorem claim_C4_witness :
    (calculate_match_score ["a"] ["a", "b"] 1 1).2.1.card ≤ 1
    ∧ (calculate_match_score ["a"] ["a", "b"] 1 1).2.2.card ≤ 1
    ∧ (∀ w ∈ (calculate_match_score ["a"] ["a", "b"] 1 1).2.1,
        ∀ v ∈ specMatched ["a"] ["a", "b"] 1,
          v ∉ (calculate_match_score ["a"] ["a", "b"] 1 1).2.1 →
            List.count v ["a"] ≤ List.count w ["a"])
    ∧ (∀ w ∈ (calculate_match_score ["a"] ["a", "b"] 1 1).2.2,
        ∀ v ∈ specMissing ["a"] ["a", "b"] 1,
          v ∉ (calculate_match_score ["a"] ["a", "b"] 1 1).2.2 →
            List.count v ["a"] ≤ List.count w ["a"]) :=
  claim_C4 ["a"] ["a", "b"] 1 1 (by decide)

/-- **C8**: for a fixed non-empty filtered keyword set, the score is
monotonically non-decreasing in the cardinality of the matched set: if two
inputs yield the same filtered keyword set and the second yields a matched
set of cardinality at least that of the first, the second score is at
least the first. -/
theorem claim_C8 (rt1 jd1 rt2 jd2 : List String) (mf1 mf2 tn1 tn2 : ℕ)
    (h1 : rt1 ≠ []) (h2 : jd1 ≠ []) (h3 : rt2 ≠ []) (h4 : jd2 ≠ [])
    (hne : specFiltered jd1 mf1 ≠ ∅)
    (hF : specFiltered jd1 mf1 = specFiltered jd2 mf2)
    (hm : (specMatched rt1 jd1 mf1).card ≤ (specMatched rt2 jd2 mf2).card) :
    (calculate_match_score rt1 jd1 mf1 tn1).1
      ≤ (calculate_match_score rt2 jd2 mf2 tn2).1 := by
  rw [cms_fst rt1 jd1 mf1 tn1 h1 h2, cms_fst rt2 jd2 mf2 tn2 h3 h4,
    length_matchedList, length_jdFilteredList, length_matchedList,
    length_jdFilteredList, ← hF]
  apply round2_mono
  gcongr


theorem claim_C8_witness :
    (calculate_match_score ["x"] ["a"] 1 75).1
      ≤ (calculate_match_score ["a"] ["a"] 1 75).1 :=
  claim_C8 ["x"] ["a"] ["a"] ["a"] 1 1 75 75 (by decide) (by decide) (by decide)
    (by decide) (by decide) (by decide) (by decide)

/-- **C9**: `calculate_match_score` is deterministic: two runs on equal
`resume_tokens`, `jd_keywords`, `min_freq` and `top_n` return identical
scores and identical matched and missing sets, including the selection
made by the top-N truncation. -/
theorem claim_C9 (rt jd rt' jd' : List String) (mf tn mf' tn' : ℕ)
    (h1 : rt = rt') (h2 : jd = jd') (h3 : mf = mf') (h4 : tn = tn') :
    calculate_match_score rt jd mf tn = calculate_match_score rt' jd' mf' tn' := by
  rw [h1, h2, h3, h4]

theorem claim_C9_witness :
    calculate_match_score ["python"] ["python", "java"] 1 75
      = calculate_match_score ["python"] ["python", "java"] 1 75 :=
  claim_C9 ["python"] ["python", "java"] ["python"] ["python", "java"]
    1 75 1 75 rfl rfl rfl rfl

/-! ## Claims about `get_keywords` and `preprocess_text` -/

/-- **C5**: `get_keywords` returns at most `top_n` items, never includes a
purely numeric token, includes only tokens whose frequency in the token
stream is at least `min_freq`, draws its candidates from the top
`2 * top_n` tokens by frequency rank, and on Scenario C returns
`["cat"]`. -/
theorem claim_C5 :
    (∀ (ready : Bool) (text : Option String) (mf tn : ℕ),
      (get_keywords ready text mf tn).length ≤ tn
      ∧ ∀ w ∈ get_keywords ready text mf tn,
          pyIsDigit w = false
          ∧ mf ≤ (preprocess_text ready text).count w
          ∧ w ∈ most_common (preprocess_text ready text) (tn * 2))
    ∧ get_keywords true (some "cat cat cat dog") 2 50 = ["cat"] := by
  constructor
  · intro ready text mf tn
    simp only [get_keywords]
    by_cases h : preprocess_text ready text = []
    · simp [h]
    · rw [if_neg h]
      refine ⟨List.length_take_le _ _, ?_⟩
      intro w hw
      have hw' := (List.take_sublist _ _).subset hw
      rw [List.mem_filter] at hw'
      obtain ⟨hmc, hp⟩ := hw'
      simp only [Bool.and_eq_true, decide_eq_true_eq, Bool.not_eq_true'] at hp
      exact ⟨hp.2, hp.1, hmc⟩
  · decide

theorem claim_C5_witness : get_keywords true (some "cat cat cat dog") 2 50 = ["cat"] :=
  claim_C5.2

theorem char_val_le_iff {c : Char} {m : UInt32} : c.val ≤ m ↔ c.toNat ≤ m.toNat :=
  Iff.rfl

theorem char_val_ge_iff {c : Char} {m : UInt32} : m ≤ c.val ↔ m.toNat ≤ c.toNat :=
  Iff.rfl

theorem charOfNat_toNat {n : ℕ} (h : n.isValidChar) : (Char.ofNat n).toNat = n := by
  rw [Char.ofNat, dif_pos h]
  rfl

theorem isUpper_iff (c : Char) : c.isUpper = true ↔ 65 ≤ c.toNat ∧ c.toNat ≤ 90 := by
  simp only [Char.isUpper, Bool.and_eq_true, decide_eq_true_eq, ge_iff_le,
    char_val_le_iff, char_val_ge_iff]
  exact Iff.rfl

/-- `Char.toLower` never produces an upper-case letter. -/
theorem isUpper_toLower (c : Char) : c.toLower.isUpper = false := by
  simp only [Char.toLower]
  split
  · next h =>
    have hv : (Char.ofNat (c.toNat + 32)).toNat = c.toNat + 32 :=
      charOfNat_toNat (Or.inl (by omega))
    rw [Bool.eq_false_iff]
    intro hup
    rw [isUpper_iff, hv] at hup
    omega
  · next h =>
    rw [Bool.eq_false_iff]
    intro hup
    rw [isUpper_iff] at hup
    exact h ⟨hup.1, hup.2⟩

/-- Every character of every piece produced by `splitWsCore` comes from the
accumulator or from the input. -/
theorem splitWsCore_chars :
    ∀ (l acc w : List Char), w ∈ splitWsCore l acc → ∀ c ∈ w, c ∈ acc ∨ c ∈ l := by
  intro l
  induction l with
  | nil =>
    intro acc w hw c hc
    unfold splitWsCore at hw
    split at hw
    · simp at hw
    · rw [List.mem_singleton] at hw
      subst hw
      exact Or.inl (List.mem_reverse.mp hc)
  | cons a as ih =>
    intro acc w hw c hc
    unfold splitWsCore at hw
    split at hw
    · split at hw
      · rcases ih [] w hw c hc with h | h
        · simp at h
        · exact Or.inr (List.mem_cons_of_mem a h)
      · rcases List.mem_cons.mp hw with h | h
        · subst h
          exact Or.inl (List.mem_reverse.mp hc)
        · rcases ih [] w h c hc with h' | h'
          · simp at h'
          · exact Or.inr (List.mem_cons_of_mem a h')
    · rcases ih (a :: acc) w hw c hc with h | h
      · rcases List.mem_cons.mp h with h' | h'
        · rw [h']
          exact Or.inr (List.mem_cons_self _ _)
        · exact Or.inl h'
      · exact Or.inr (List.mem_cons_of_mem a h)

/-- Every character of every token of `pySplit s` is a character of `s`. -/
theorem pySplit_chars {s : String} {w : String} (hw : w ∈ pySplit s) :
    ∀ c ∈ w.data, c ∈ s.data := by
  intro c hc
  obtain ⟨cs, hcs, rfl⟩ := List.mem_map.mp hw
  rcases splitWsCore_chars s.data [] cs hcs c hc with h | h
  · simp at h
  · exact h

/-- Every character of `cleanText s` is the `toLower` image of some
character, hence not upper case. -/
theorem cleanText_chars {s : String} {c : Char} (hc : c ∈ (cleanText s).data) :
    c.isUpper = false := by
  simp only [cleanText] at hc
  rcases List.mem_filter.mp hc with ⟨hmem, _⟩
  obtain ⟨d, _, rfl⟩ := List.mem_map.mp hmem
  exact isUpper_toLower d

/-- Tokens of `preprocess_text` come from whitespace-splitting the cleaned
text and pass the stopword/length filter. -/
theorem preprocess_mem {ready : Bool} {text : Option String} {w : String}
    (hw : w ∈ preprocess_text ready text) :
    ∃ s, text = some s ∧ w ∈ pySplit (cleanText s) ∧ keepToken ready w = true := by
  cases text with
  | none => simp [preprocess_text] at hw
  | some s =>
    simp only [preprocess_text] at hw
    by_cases h : s = ""
    · rw [if_pos h] at hw
      simp at hw
    · rw [if_neg h] at hw
      have htok : (if ready then word_tokenize (cleanText s)
          else pySplit (cleanText s)) = pySplit (cleanText s) := by
        cases ready <;> rfl
      rw [htok, List.mem_filter] at hw
      exact ⟨s, rfl, hw.1, hw.2⟩

/-- **C6**: every token returned by `preprocess_text` is lowercase and has
length at least one, single-character tokens are kept only if they are
digits, an empty or `None` input produces the empty sequence, and
Scenario D holds. -/
theorem claim_C6 :
    (∀ (ready : Bool) (text : Option String) (w : String),
        w ∈ preprocess_text ready text →
          (∀ c ∈ w.data, c.isUpper = false)
          ∧ 1 ≤ w.length
          ∧ (w.length = 1 → pyIsDigit w = true))
    ∧ (∀ ready : Bool, preprocess_text ready none = []
        ∧ preprocess_text ready (some "") = [])
    ∧ preprocess_text true (some "Hello, World! 123") = ["hello", "world", "123"] := by
  refine ⟨?_, ?_, by decide⟩
  · intro ready text w hw
    obtain ⟨s, -, hsplit, hkeep⟩ := preprocess_mem hw
    simp only [keepToken, Bool.and_eq_true, Bool.or_eq_true,
      decide_eq_true_eq] at hkeep
    have hne : w.length = 0 → pyIsDigit w = false := by
      intro hlen
      have : w.data = [] := List.length_eq_zero.mp hlen
      rw [pyIsDigit, this]
      rfl
    refine ⟨?_, ?_, ?_⟩
    · intro c hc
      exact cleanText_chars (pySplit_chars hsplit c hc)
    · rcases hkeep.2 with h | h
      · omega
      · by_contra hcon
        have h0 : w.length = 0 := by omega
        rw [hne h0] at h
        exact Bool.false_ne_true h
    · intro hlen
      rcases hkeep.2 with h | h
      · omega
      · exact h
  · intro ready
    exact ⟨rfl, by cases ready <;> rfl⟩

theorem claim_C6_witness :
    preprocess_text true (some "Hello, World! 123") = ["hello", "world", "123"] :=
  claim_C6.2.2

/-- **C7**: in degraded mode (`NLTK_RESOURCES_READY = false`) the stopword
set is empty and splitting is whitespace-only — `preprocess_text` equals
the plain whitespace split of the cleaned text filtered only by the
length/digit test — and Scenario E holds: `"The Cat Sat"` normalizes to
`["the", "cat", "sat"]`. -/
theorem claim_C7 :
    (∀ t : String, preprocess_text false (some t)
        = (pySplit (cleanText t)).filter
            (fun w => decide (1 < w.length) || pyIsDigit w))
    ∧ preprocess_text false (some "The Cat Sat") = ["the", "cat", "sat"] := by
  constructor
  · intro t
    by_cases h : t = ""
    · rw [h]
      decide
    · simp only [preprocess_text]
      rw [if_neg h]
      have hk : keepToken false = fun w => decide (1 < w.length) || pyIsDigit w := by
        funext w
        simp [keepToken, STOP_WORDS]
      rw [hk]
      rfl
  · decide

theorem claim_C7_witness :
    preprocess_text false (some "The Cat Sat") = ["the", "cat", "sat"] :=
  claim_C7.2
